import Mathlib

set_option maxHeartbeats 1000000

namespace PiGate

/-- Python strings are modelled as lists of characters. -/
abbrev Str := List Char

/-- Characters removed by the Python str.strip method, restricted to ASCII whitespace. -/
def pyIsSpace (c : Char) : Bool :=
  c.toNat == 32 || c.toNat == 9 || c.toNat == 10 || c.toNat == 13 || c.toNat == 11 || c.toNat == 12

/-- Python str.lower, restricted to ASCII as used on domain text. -/
def pyLower (s : Str) : Str := s.map Char.toLower

/-- Python str.strip with no argument: drop leading and trailing whitespace. -/
def pyStrip (s : Str) : Str := ((s.dropWhile pyIsSpace).reverse.dropWhile pyIsSpace).reverse

/-- Python rstrip with a slash argument, line 100 of blm_filter.py. -/
def pyRStripSlash (s : Str) : Str := (s.reverse.dropWhile (fun c => c == '/')).reverse

/-- Python rstrip with a dot argument, line 83 of dns_server_async.py. -/
def pyRStripDots (s : Str) : Str := (s.reverse.dropWhile (fun c => c == '.')).reverse

/-- Characters allowed in a URL scheme by CPython urllib.parse. -/
def schemeChar (c : Char) : Bool := c.isAlphanum || c == '+' || c == '-' || c == '.'

/-- C0 control characters and space, stripped from the start of a URL by urlsplit. -/
def c0OrSpace (c : Char) : Bool := c.toNat ≤ 32

/-- Tab, carriage return and newline bytes are removed everywhere inside a URL by urlsplit. -/
def removedByte (c : Char) : Bool := c.toNat == 9 || c.toNat == 13 || c.toNat == 10

/-- Modelled from CPython urllib.parse.urlsplit: remove the scheme part when one is present. -/
def splitSchemeRest (s : Str) : Str :=
  match s.findIdx? (fun c => c == ':') with
  | some i =>
    if 0 < i ∧ (s.headD ' ').isAlpha = true ∧ ((s.take i).drop 1).all schemeChar = true then
      s.drop (i + 1)
    else s
  | none => s

/-- Modelled from CPython urllib.parse: the netloc runs from after the two slashes up to the
first slash, question mark or hash sign. -/
def splitNetloc (s : Str) : Str :=
  (s.drop 2).takeWhile (fun c => !(c == '/' || c == '?' || c == '#'))

/-- Modelled from CPython urllib.parse.urlparse, restricted to the netloc component that
normalize_url reads. -/
def urlparseNetloc (s : Str) : Str :=
  let s := s.dropWhile c0OrSpace
  let s := s.filter (fun c => !removedByte c)
  let rest := splitSchemeRest s
  if ['/', '/'] <+: rest then splitNetloc rest else []

/-- The scheme separator text looked for on line 91 of blm_filter.py. -/
def schemeSep : Str := [':', '/', '/']

/-- The leading label stripped on lines 96 to 97 of blm_filter.py. -/
def wwwDot : Str := ['w', 'w', 'w', '.']

/-- Lines 91 to 93 of blm_filter.py: when the scheme separator occurs in the string, keep only
the parsed netloc. -/
def schemeStep (s : Str) : Str := if schemeSep <:+: s then urlparseNetloc s else s

/-- Lines 96 to 97 of blm_filter.py: drop one leading www. label. -/
def wwwStep (s : Str) : Str := if wwwDot <+: s then s.drop 4 else s

/-- BlmFilter.normalize_url, lines 77 to 102 of blm_filter.py: lowercase and strip, extract the
netloc when a scheme separator is present, drop one leading www. label, strip trailing slashes. -/
def normalize_url (url : Str) : Str :=
  let url := pyStrip (pyLower url)
  let url := schemeStep url
  let url := wwwStep url
  pyRStripSlash url

/-- The hash family of the underlying Bloom filter, kept abstract: a key is mapped to the list
of bit positions that inserting it sets.  pybloom_live derives these positions from SHA based
hashes of the key; nothing below depends on which family is used except where a fixed concrete
model is given. -/
structure HashModel where
  idx : Str → List Nat

/-- The state of a pybloom_live BloomFilter: its configured capacity, the count of additions
that set at least one new bit, and the keys added so far.  The bit array is represented
extensionally: bit i is set exactly when some added key has i among its positions. -/
structure BloomFilter where
  capacity : Nat
  count : Nat
  keys : List Str
deriving DecidableEq

/-- Bit i of the filter is set: some added key hashes onto it. -/
def bitSet (M : HashModel) (b : BloomFilter) (i : Nat) : Bool :=
  b.keys.any (fun k => (M.idx k).any (fun j => j == i))

/-- Membership test of the Bloom filter: every bit position of the key is set. -/
def bloomContains (M : HashModel) (b : BloomFilter) (s : Str) : Bool :=
  (M.idx s).all (fun i => bitSet M b i)

/-- pybloom_live BloomFilter.add: raises (None here) when the count already exceeds the
capacity, otherwise sets the bits of the key and bumps the count when the key was not
already reported present. -/
def bloomAdd (M : HashModel) (b : BloomFilter) (key : Str) : Option BloomFilter :=
  if b.capacity < b.count then none
  else some ⟨b.capacity, b.count + (if bloomContains M b key then 0 else 1), key :: b.keys⟩

/-- BlmFilter.check_url, lines 206 to 223 of blm_filter.py: an uninitialized filter answers
false; otherwise one trailing dot is removed, the name is normalized and looked up. -/
def check_url (M : HashModel) (bloomFilter : Option BloomFilter) (url : Str) : Bool :=
  match bloomFilter with
  | none => false
  | some bf =>
    let url := if ['.'] <:+ url then url.dropLast else url
    bloomContains M bf (normalize_url url)

/-- URLBlocker.check_url, lines 147 to 161 of filter.py: an uninitialized filter answers
false; otherwise the raw string is looked up with no normalization. -/
def urlblocker_check_url (M : HashModel) (bloomFilter : Option BloomFilter) (url : Str) : Bool :=
  match bloomFilter with
  | none => false
  | some bf => bloomContains M bf url

/-- Consume one or more ASCII digits, returning the rest of the string. -/
def munchDigits : Str → Option Str
  | [] => none
  | c :: rest => if c.isDigit then some (rest.dropWhile Char.isDigit) else none

/-- Consume one dot, returning the rest of the string. -/
def munchDot : Str → Option Str
  | [] => none
  | c :: rest => if c == '.' then some rest else none

/-- The regular expression of line 137 of blm_filter.py: four dot separated digit groups
followed by whitespace, anchored at the start of the entry. -/
def matchIpWs (s : Str) : Bool :=
  match (((((((munchDigits s).bind munchDot).bind munchDigits).bind munchDot).bind
      munchDigits).bind munchDot).bind munchDigits) with
  | some rest => pyIsSpace (rest.headD 'x')
  | none => false

/-- Python str.split with no argument: split on runs of whitespace, dropping empty pieces. -/
def pySplitAux : Str → Str → List Str
  | [], acc => if acc.isEmpty then [] else [acc.reverse]
  | c :: rest, acc =>
    if pyIsSpace c then
      if acc.isEmpty then pySplitAux rest [] else acc.reverse :: pySplitAux rest []
    else pySplitAux rest (c :: acc)

/-- Python str.split with no argument. -/
def pySplit (s : Str) : List Str := pySplitAux s []

/-- Lines 135 to 141 of blm_filter.py: an entry of hosts file shape keeps its second token,
an entry containing a space keeps its first token, anything else is kept whole. -/
def extractEntry (e : Str) : Str :=
  if matchIpWs e then (pySplit e).getD 1 []
  else if ' ' ∈ e then (pySplit e).getD 0 []
  else e

/-- One iteration of the loading loop of BlmFilter.load_urls_from_url, lines 126 to 147 of
blm_filter.py: strip the line, skip blanks and comments, extract the domain token, normalize
it, and report it for insertion only when non empty. -/
def processLine (line : Str) : Option Str :=
  let e := pyStrip line
  if e = [] ∨ e.headD '#' = '#' then none
  else
    let n := normalize_url (extractEntry e)
    if n = [] then none else some n

/-- The fold of BlmFilter.load_urls_from_url over the fetched lines; a None result models the
capacity exception of the Bloom filter aborting the load. -/
def load_urls_aux (M : HashModel) : List Str → BloomFilter → Option BloomFilter
  | [], b => some b
  | line :: rest, b =>
    match processLine line with
    | none => load_urls_aux M rest b
    | some n =>
      match bloomAdd M b n with
      | none => none
      | some b2 => load_urls_aux M rest b2

/-- BlmFilter.load_urls_from_url, lines 104 to 177 of blm_filter.py, with the downloaded body
given as a list of lines: build a fresh filter of the configured capacity and insert every
normalized entry. -/
def load_urls_from_list (M : HashModel) (lines : List Str) (capacity : Nat) :
    Option BloomFilter :=
  load_urls_aux M lines ⟨capacity, 0, []⟩

/-- The blocked domain text for localhost, excluded by load_blocklist. -/
def localhostStr : Str := ['l', 'o', 'c', 'a', 'l', 'h', 'o', 's', 't']

/-- The blocked domain text for local, excluded by load_blocklist. -/
def localStr : Str := ['l', 'o', 'c', 'a', 'l']

/-- One line of the loop of load_blocklist, lines 46 to 57 of dns_server_async.py: strip,
skip blanks and comments, and when the line has at least two whitespace separated tokens add
the lowercased second token unless it is localhost or local. -/
def blocklistStep (blocked : List Str) (line : Str) : List Str :=
  if pyStrip line = [] ∨ (pyStrip line).headD '#' = '#' then blocked
  else if 2 ≤ (pySplit (pyStrip line)).length then
    if pyLower ((pySplit (pyStrip line)).getD 1 []) = localhostStr ∨
        pyLower ((pySplit (pyStrip line)).getD 1 []) = localStr then blocked
    else pyLower ((pySplit (pyStrip line)).getD 1 []) :: blocked
  else blocked

/-- The fold of load_blocklist over the lines of the downloaded body. -/
def load_blocklist_aux : List Str → List Str → List Str
  | [], blocked => blocked
  | line :: rest, blocked => load_blocklist_aux rest (blocklistStep blocked line)

/-- load_blocklist, lines 35 to 62 of dns_server_async.py, with the downloaded body given as a
list of lines; the returned collection holds the domains added to the blocked set. -/
def load_blocklist_lines (lines : List Str) : List Str :=
  load_blocklist_aux lines []

/-- is_blocked, lines 77 to 87 of dns_server_async.py: strip trailing dots, lowercase, then
test exact equality with a blocked domain or the dotted suffix relation. -/
def is_blocked (blockedDomains : List Str) (query_name : Str) : Bool :=
  let qn := pyLower (pyRStripDots query_name)
  blockedDomains.any (fun b => qn == b || List.isSuffixOf ('.' :: b) qn)

/-- A DNS question: query name (in dotted text form) and query type code. -/
structure Question where
  qname : Str
  qtype : Nat
deriving DecidableEq

/-- The dnslib DNSHeader fields that handle_query sets or copies. -/
structure DNSHeaderM where
  id : Nat
  qr : Nat
  aa : Nat
  ra : Nat
  rcode : Nat
deriving DecidableEq

/-- A dnslib resource record as built on line 166 of dns_server_async.py. -/
structure RRecord where
  rname : Str
  rtype : Nat
  rclass : Nat
  ttl : Nat
  rdata : Str
deriving DecidableEq

/-- A dnslib DNSRecord: header, single question, answer records. -/
structure DNSRecordM where
  header : DNSHeaderM
  q : Question
  answers : List RRecord
deriving DecidableEq

/-- The datagram sent back to the client: either a reply packed from a record built locally,
or the raw upstream bytes relayed verbatim. -/
inductive ResponseData where
  | packed (r : DNSRecordM)
  | raw (bytes : List Nat)
deriving DecidableEq

/-- One row of the dns_requests table written by database.log_query, lines 36 to 54 of
database.py. -/
structure AuditRecord where
  client_ip : Str
  domain : Str
  blocked : Nat
  success : Nat
deriving DecidableEq

/-- What one run of DnsServerProtocol.handle_query does: the datagram sent back to the client,
if any, and the audit records written to the database. -/
structure HandlerResult where
  response : Option ResponseData
  audits : List AuditRecord
deriving DecidableEq

/-- The sinkhole address of line 18 of dns_server_async.py. -/
def sinkholeIp : Str := ['0', '.', '0', '.', '0', '.', '0']

/-- DnsServerProtocol.handle_query, lines 151 to 184 of dns_server_async.py.  The parse result
of the incoming datagram and the outcome of forward_query are passed as arguments: parse
failure raises, is caught by the surrounding handler, and produces no reply; a blocked name is
answered with an authoritative sinkhole A record; otherwise the upstream reply is relayed when
one arrived and a SERVFAIL reply with the original id and question is synthesized when
forwarding returned None. -/
def handle_query (blockedDomains : List Str) (parsed : Option DNSRecordM)
    (forwardResult : Option (List Nat)) : HandlerResult :=
  match parsed with
  | none => ⟨none, []⟩
  | some request =>
    if is_blocked blockedDomains request.q.qname then
      let reply : DNSRecordM :=
        ⟨⟨request.header.id, 1, 1, 1, 0⟩, request.q,
          [⟨request.q.qname, 1, 1, 60, sinkholeIp⟩]⟩
      ⟨some (ResponseData.packed reply), []⟩
    else
      match forwardResult with
      | some bytes => ⟨some (ResponseData.raw bytes), []⟩
      | none =>
        let reply : DNSRecordM := ⟨⟨request.header.id, 1, 0, 1, 2⟩, request.q, []⟩
        ⟨some (ResponseData.packed reply), []⟩

/-- The dispatch loop of DnsServerProtocol.datagram_received: every incoming datagram is
handled by its own independent handler run. -/
def server_run (blockedDomains : List Str)
    (datagrams : List (Option DNSRecordM × Option (List Nat))) : List HandlerResult :=
  datagrams.map (fun d => handle_query blockedDomains d.1 d.2)

/-- The content of the snapshot file as pickle sees it: either it fails to deserialize, or it
deserializes to a filter object. -/
inductive PickleContent where
  | undecodable
  | filter (bf : BloomFilter)
deriving DecidableEq

/-- The state of the snapshot file on disk. -/
inductive SnapshotState where
  | missing
  | present (content : PickleContent)
deriving DecidableEq

/-- The log line emitted by BlmFilter.load_bloom_filter. -/
inductive LoadLog where
  | loadedInfo
  | missingWarning
  | loadError
deriving DecidableEq

/-- The observable outcome of BlmFilter.load_bloom_filter: its boolean return value, the
active filter afterwards, and the log line emitted. -/
structure LoadOutcome where
  ret : Bool
  bloomAfter : Option BloomFilter
  log : LoadLog
deriving DecidableEq

/-- BlmFilter.load_bloom_filter, lines 190 to 204 of blm_filter.py: a missing file logs a
warning and returns False; a file whose content fails to deserialize raises inside the try,
logs an error and returns False, leaving the active filter unchanged; any deserialized filter
object is installed unconditionally and True is returned. -/
def load_bloom_filter (prior : Option BloomFilter) (snap : SnapshotState) : LoadOutcome :=
  match snap with
  | SnapshotState.missing => ⟨false, prior, LoadLog.missingWarning⟩
  | SnapshotState.present PickleContent.undecodable => ⟨false, prior, LoadLog.loadError⟩
  | SnapshotState.present (PickleContent.filter bf) => ⟨true, some bf, LoadLog.loadedInfo⟩

/-- Spec step: trim surrounding whitespace. -/
def specTrim (s : Str) : Str := ((s.dropWhile pyIsSpace).reverse.dropWhile pyIsSpace).reverse

/-- Spec step: lowercase. -/
def specLower (s : Str) : Str := s.map Char.toLower

/-- Spec step: when a scheme separator is present, extract only the host portion. -/
def specHost (s : Str) : Str := if schemeSep <:+: s then urlparseNetloc s else s

/-- Spec step: strip a single leading www. label. -/
def specStripWww (s : Str) : Str := if wwwDot <+: s then s.drop 4 else s

/-- Spec step: strip trailing slash characters. -/
def specStripSlash (s : Str) : Str := (s.reverse.dropWhile (fun c => c == '/')).reverse

/-- Spec step: strip a trailing dot. -/
def specStripDot (s : Str) : Str := if ['.'] <:+ s then s.dropLast else s

/-- The normalizer exactly as the claim describes it: trim, lowercase, host extraction,
leading www. strip, trailing slash strip, trailing dot strip. -/
def specNormalizeClaimed (s : Str) : Str :=
  specStripDot (specStripSlash (specStripWww (specHost (specLower (specTrim s)))))

/-- The normalizer as the claim must be amended: the same steps but with no trailing dot
strip. -/
def specNormalizeAmended (s : Str) : Str :=
  specStripSlash (specStripWww (specHost (specLower (specTrim s))))

/-- The text example.com. -/
def exCom : Str := ['e', 'x', 'a', 'm', 'p', 'l', 'e', '.', 'c', 'o', 'm']

/-- The text example.com followed by a trailing dot. -/
def exComDot : Str := exCom ++ ['.']

/-- The text ads.example.com. -/
def adsExCom : Str := ['a', 'd', 's', '.'] ++ exCom

/-- The text a.ads.example.com. -/
def aAdsExCom : Str := ['a', '.'] ++ adsExCom

/-- The text www.www.example.com. -/
def wwwWwwExCom : Str := wwwDot ++ wwwDot ++ exCom

/-- A hosts file line: sinkhole address, a space, then Ads.example.com in mixed case. -/
def hostsLine : Str :=
  sinkholeIp ++ [' ', 'A', 'd', 's', '.'] ++ exCom

/-- A concrete instance of the abstract hash family: a single polynomial rolling hash per key,
used to evaluate the model on closed inputs. -/
def hashM : HashModel :=
  ⟨fun s => [s.foldl (fun a c => (a * 131 + c.toNat) % 1000003) 7]⟩

/-- Every character of a lowercased string is fixed by toLower. -/
def lowerFixed (l : Str) : Prop := ∀ c ∈ l, Char.toLower c = c

theorem toNat_ofNat_small (n : Nat) (h : n < 55296) : (Char.ofNat n).toNat = n := by
  have hv : n.isValidChar := Or.inl h
  rw [Char.ofNat, dif_pos hv]
  rfl

theorem toLower_of_upper (c : Char) (h : c.toNat ≥ 65 ∧ c.toNat ≤ 90) :
    Char.toLower c = Char.ofNat (c.toNat + 32) := by
  unfold Char.toLower
  rw [if_pos h]

theorem toLower_of_not_upper (c : Char) (h : ¬(c.toNat ≥ 65 ∧ c.toNat ≤ 90)) :
    Char.toLower c = c := by
  unfold Char.toLower
  rw [if_neg h]

theorem toLower_toLower (c : Char) : Char.toLower (Char.toLower c) = Char.toLower c := by
  by_cases h : c.toNat ≥ 65 ∧ c.toNat ≤ 90
  · rw [toLower_of_upper c h]
    have h3 : (Char.ofNat (c.toNat + 32)).toNat = c.toNat + 32 :=
      toNat_ofNat_small _ (by omega)
    exact toLower_of_not_upper _ (by rw [h3]; omega)
  · simp only [toLower_of_not_upper c h]

theorem pyIsSpace_of_toNat (c : Char)
    (h : c.toNat ≠ 32 ∧ c.toNat ≠ 9 ∧ c.toNat ≠ 10 ∧ c.toNat ≠ 13 ∧ c.toNat ≠ 11 ∧ c.toNat ≠ 12) :
    pyIsSpace c = false := by
  unfold pyIsSpace
  simp only [Bool.or_eq_false_iff, beq_eq_false_iff_ne, ne_eq]
  omega

theorem pyIsSpace_toLower (c : Char) : pyIsSpace (Char.toLower c) = pyIsSpace c := by
  by_cases h : c.toNat ≥ 65 ∧ c.toNat ≤ 90
  · have h3 : (Char.ofNat (c.toNat + 32)).toNat = c.toNat + 32 :=
      toNat_ofNat_small _ (by omega)
    have ha : pyIsSpace (Char.toLower c) = false := by
      rw [toLower_of_upper c h]
      exact pyIsSpace_of_toNat _ (by rw [h3]; omega)
    have hb : pyIsSpace c = false := pyIsSpace_of_toNat _ (by omega)
    rw [ha, hb]
  · rw [toLower_of_not_upper c h]

theorem lowerFixed_pyLower (s : Str) : lowerFixed (pyLower s) := by
  intro c hc
  rcases List.mem_map.mp hc with ⟨d, _, rfl⟩
  exact toLower_toLower d

theorem lowerFixed_of_subset {l m : Str} (h : l ⊆ m) (hm : lowerFixed m) : lowerFixed l :=
  fun c hc => hm c (h hc)

theorem pyLower_eq_self {l : Str} (h : lowerFixed l) : pyLower l = l := by
  induction l with
  | nil => rfl
  | cons c t ih =>
    have hc := h c (List.mem_cons_self c t)
    have ht := ih (fun d hd => h d (List.mem_cons_of_mem c hd))
    unfold pyLower at ht ⊢
    rw [List.map_cons, hc, ht]

theorem pyStrip_subset (s : Str) : pyStrip s ⊆ s := by
  intro c hc
  unfold pyStrip at hc
  rw [List.mem_reverse] at hc
  have h1 := List.dropWhile_subset pyIsSpace hc
  rw [List.mem_reverse] at h1
  exact List.dropWhile_subset pyIsSpace h1

theorem pyRStripSlash_subset (s : Str) : pyRStripSlash s ⊆ s := by
  intro c hc
  unfold pyRStripSlash at hc
  rw [List.mem_reverse] at hc
  have h1 := List.dropWhile_subset (fun c => c == '/') hc
  rw [List.mem_reverse] at h1
  exact h1

theorem urlparseNetloc_subset (s : Str) : urlparseNetloc s ⊆ s := by
  intro c hc
  simp only [urlparseNetloc] at hc
  split at hc
  · unfold splitNetloc at hc
    have h1 := List.takeWhile_subset _ hc
    have h2 := List.drop_subset 2 _ h1
    have h3 : splitSchemeRest (List.filter (fun c => !removedByte c) (s.dropWhile c0OrSpace)) ⊆
        List.filter (fun c => !removedByte c) (s.dropWhile c0OrSpace) := by
      unfold splitSchemeRest
      split
      · split
        · exact List.drop_subset _ _
        · exact fun x hx => hx
      · exact fun x hx => hx
    have h4 := h3 h2
    have h5 := (List.filter_sublist _).subset h4
    exact List.dropWhile_subset _ h5
  · exact absurd hc (List.not_mem_nil c)

theorem schemeStep_subset (s : Str) : schemeStep s ⊆ s := by
  unfold schemeStep
  split
  · exact urlparseNetloc_subset s
  · exact fun x hx => hx

theorem wwwStep_subset (s : Str) : wwwStep s ⊆ s := by
  unfold wwwStep
  split
  · exact List.drop_subset _ _
  · exact fun x hx => hx

theorem normalize_url_subset (x : Str) : normalize_url x ⊆ pyLower x := by
  intro c hc
  unfold normalize_url at hc
  have h1 := pyRStripSlash_subset _ hc
  have h2 := wwwStep_subset _ h1
  have h3 := schemeStep_subset _ h2
  exact pyStrip_subset _ h3

theorem lowerFixed_normalize (x : Str) : lowerFixed (normalize_url x) :=
  lowerFixed_of_subset (normalize_url_subset x) (lowerFixed_pyLower x)

theorem netloc_no_slash (s : Str) {c : Char} (hc : c ∈ urlparseNetloc s) :
    ¬ c = '/' := by
  simp only [urlparseNetloc] at hc
  split at hc
  · unfold splitNetloc at hc
    have h1 := List.mem_takeWhile_imp hc
    intro heq
    rw [heq] at h1
    exact absurd h1 (by decide)
  · exact absurd hc (List.not_mem_nil c)

theorem pyRStripSlash_isPrefix (l : Str) : pyRStripSlash l <+: l := by
  unfold pyRStripSlash
  exact List.reverse_suffix.mp
    (by rw [List.reverse_reverse]; exact List.dropWhile_suffix (fun c => c == '/'))

theorem wwwStep_isSuffix (s : Str) : wwwStep s <:+ s := by
  unfold wwwStep
  split
  · exact List.drop_suffix 4 s
  · exact List.suffix_refl s

theorem schemeStep_of_infix {s : Str} (h : schemeSep <:+: s) :
    schemeStep s = urlparseNetloc s := by
  unfold schemeStep
  rw [if_pos h]

theorem schemeStep_of_not_infix {s : Str} (h : ¬ schemeSep <:+: s) : schemeStep s = s := by
  unfold schemeStep
  rw [if_neg h]

theorem schemeSep_not_infix_normalize (x : Str) : ¬ (schemeSep <:+: normalize_url x) := by
  intro hinf
  have hslash : '/' ∈ normalize_url x :=
    List.IsInfix.subset hinf (by decide)
  by_cases hb : schemeSep <:+: pyStrip (pyLower x)
  · have heq : normalize_url x = pyRStripSlash (wwwStep (schemeStep (pyStrip (pyLower x)))) :=
      rfl
    rw [heq, schemeStep_of_infix hb] at hslash
    have h1 := pyRStripSlash_subset _ hslash
    have h2 := wwwStep_subset _ h1
    exact netloc_no_slash _ h2 rfl
  · have heq : normalize_url x = pyRStripSlash (wwwStep (schemeStep (pyStrip (pyLower x)))) :=
      rfl
    have hinf2 : normalize_url x <:+: pyStrip (pyLower x) := by
      rw [heq, schemeStep_of_not_infix hb]
      exact List.IsInfix.trans
        (List.IsPrefix.isInfix (pyRStripSlash_isPrefix _))
        (List.IsSuffix.isInfix (wwwStep_isSuffix _))
    exact hb (List.IsInfix.trans hinf hinf2)

theorem dropWhile_idem (p : Char → Bool) (l : Str) :
    List.dropWhile p (List.dropWhile p l) = List.dropWhile p l := by
  induction l with
  | nil => rfl
  | cons c t ih =>
    by_cases h : p c = true
    · rw [List.dropWhile_cons_of_pos h, ih]
    · rw [List.dropWhile_cons_of_neg h, List.dropWhile_cons_of_neg h]

theorem pyRStripSlash_idem (l : Str) :
    pyRStripSlash (pyRStripSlash l) = pyRStripSlash l := by
  unfold pyRStripSlash
  rw [List.reverse_reverse, dropWhile_idem]

theorem pyRStripSlash_normalize (x : Str) :
    pyRStripSlash (normalize_url x) = normalize_url x := by
  have heq : normalize_url x = pyRStripSlash (wwwStep (schemeStep (pyStrip (pyLower x)))) :=
    rfl
  rw [heq, pyRStripSlash_idem]

theorem wwwStep_of_no_www {s : Str} (h : ¬ wwwDot <+: s) : wwwStep s = s := by
  unfold wwwStep
  rw [if_neg h]

/-- The core idempotence fact behind amended claims: re-normalizing a normalizer output gives
it back as long as that output neither begins with www. nor carries surrounding whitespace. -/
theorem normalize_idem_aux (x : Str)
    (hw : ¬ wwwDot <+: normalize_url x)
    (hs : pyStrip (normalize_url x) = normalize_url x) :
    normalize_url (normalize_url x) = normalize_url x := by
  have heq : normalize_url (normalize_url x) =
      pyRStripSlash (wwwStep (schemeStep (pyStrip (pyLower (normalize_url x))))) := rfl
  rw [heq, pyLower_eq_self (lowerFixed_normalize x), hs,
    schemeStep_of_not_infix (schemeSep_not_infix_normalize x),
    wwwStep_of_no_www hw, pyRStripSlash_normalize]

theorem bloomContains_of_mem (M : HashModel) (b : BloomFilter) {n : Str}
    (h : n ∈ b.keys) : bloomContains M b n = true := by
  unfold bloomContains
  rw [List.all_eq_true]
  intro i hi
  unfold bitSet
  rw [List.any_eq_true]
  refine ⟨n, h, ?_⟩
  rw [List.any_eq_true]
  exact ⟨i, hi, by simp⟩

theorem bloomAdd_keys {M : HashModel} {b b2 : BloomFilter} {m : Str}
    (h : bloomAdd M b m = some b2) : b2.keys = m :: b.keys := by
  unfold bloomAdd at h
  split at h
  · exact absurd h (by simp)
  · rw [← Option.some.inj h]

theorem load_urls_aux_mem (M : HashModel) (rest : List Str) :
    ∀ (b bf : BloomFilter), load_urls_aux M rest b = some bf → ∀ {n : Str}, n ∈ bf.keys →
      n ∈ b.keys ∨ ∃ line ∈ rest, processLine line = some n := by
  induction rest with
  | nil =>
    intro b bf h n hn
    unfold load_urls_aux at h
    rw [Option.some.inj h]
    exact Or.inl hn
  | cons line t ih =>
    intro b bf h n hn
    unfold load_urls_aux at h
    cases hp : processLine line with
    | none =>
      simp only [hp] at h
      rcases ih b bf h hn with h1 | ⟨l, hl, hpl⟩
      · exact Or.inl h1
      · exact Or.inr ⟨l, List.mem_cons_of_mem line hl, hpl⟩
    | some m =>
      simp only [hp] at h
      cases ha : bloomAdd M b m with
      | none =>
        simp only [ha] at h
        exact absurd h (by simp)
      | some b2 =>
        simp only [ha] at h
        rcases ih b2 bf h hn with h1 | ⟨l, hl, hpl⟩
        · rw [bloomAdd_keys ha] at h1
          rcases List.mem_cons.mp h1 with h2 | h2
          · exact Or.inr ⟨line, List.mem_cons_self line t, by rw [hp, h2]⟩
          · exact Or.inl h2
        · exact Or.inr ⟨l, List.mem_cons_of_mem line hl, hpl⟩

theorem processLine_shape {line n : Str} (h : processLine line = some n) :
    ∃ e, n = normalize_url e := by
  simp only [processLine] at h
  split at h
  · exact absurd h (by simp)
  · split at h
    · exact absurd h (by simp)
    · exact ⟨extractEntry (pyStrip line), (Option.some.inj h).symm⟩

theorem pyStrip_pyLower (s : Str) : pyStrip (pyLower s) = pyLower (pyStrip s) := by
  have hfun : (pyIsSpace ∘ Char.toLower) = pyIsSpace := funext pyIsSpace_toLower
  unfold pyStrip pyLower
  rw [List.dropWhile_map, hfun, ← List.map_reverse, List.dropWhile_map, hfun,
    ← List.map_reverse]

/-- C1, amended: for every hash family, every normalized domain name inserted by a successful
build is reported present by a subsequent check_url on that same name, provided the inserted
name does not end with a dot, does not begin with the www. label, and carries no surrounding
whitespace.  (The original unconditional claim fails: see the counterexample, where the
inserted name ends with a dot and check_url strips that dot before re-normalizing.) -/
theorem claim_C1 (M : HashModel) (lines : List Str) (capacity : Nat) (bf : BloomFilter)
    (n : Str) (hload : load_urls_from_list M lines capacity = some bf) (hmem : n ∈ bf.keys)
    (hdot : ¬ ['.'] <:+ n) (hwww : ¬ wwwDot <+: n) (hstrip : pyStrip n = n) :
    check_url M (some bf) n = true := by
  rcases load_urls_aux_mem M lines _ bf hload hmem with h0 | ⟨line, _, hp⟩
  · exact absurd h0 (List.not_mem_nil n)
  · rcases processLine_shape hp with ⟨e, he⟩
    subst he
    simp only [check_url]
    rw [if_neg hdot, normalize_idem_aux e hwww hstrip]
    exact bloomContains_of_mem M bf hmem

/-- C1 witness: a concrete successful build from one plain domain line, checked positive. -/
theorem claim_C1_witness :
    load_urls_from_list hashM [exCom] 10 = some ⟨10, 1, [exCom]⟩ ∧
      exCom ∈ (BloomFilter.mk 10 1 [exCom]).keys ∧
      ¬ ['.'] <:+ exCom ∧ ¬ wwwDot <+: exCom ∧ pyStrip exCom = exCom ∧
      check_url hashM (some ⟨10, 1, [exCom]⟩) exCom = true :=
  ⟨by decide, by decide, by decide, by decide, by decide,
    claim_C1 hashM [exCom] 10 ⟨10, 1, [exCom]⟩ exCom (by decide) (by decide) (by decide)
      (by decide) (by decide)⟩

/-- C1 counterexample: under the concrete hash model, a blocklist line bearing a trailing dot
is inserted verbatim (normalize_url keeps the dot), but check_url on that same inserted name
first strips the dot and therefore looks up a different key, returning false: the index
produces a false negative for an entry actually inserted. -/
theorem claim_C1_counterexample :
    load_urls_from_list hashM [exComDot] 10 = some ⟨10, 1, [exComDot]⟩ ∧
      exComDot ∈ (BloomFilter.mk 10 1 [exComDot]).keys ∧
      check_url hashM (some ⟨10, 1, [exComDot]⟩) exComDot = false :=
  ⟨by decide, by decide, by decide⟩

/-- C3: with the blocked set holding exactly ads.example.com, the decision for
a.ads.example.com is blocked and the decision for example.com is allowed. -/
theorem claim_C3 :
    is_blocked [adsExCom] aAdsExCom = true ∧ is_blocked [adsExCom] exCom = false := by
  decide

/-- C4, amended: normalize is idempotent on every input whose normalized form does not begin
with the www. label and has no surrounding whitespace.  (Unconditional idempotence fails: see
the counterexample, where a doubled www. label is stripped only once per pass.) -/
theorem claim_C4 (x : Str) (hw : ¬ wwwDot <+: normalize_url x)
    (hs : pyStrip (normalize_url x) = normalize_url x) :
    normalize_url (normalize_url x) = normalize_url x :=
  normalize_idem_aux x hw hs

/-- C4 witness: idempotence at a concrete input. -/
theorem claim_C4_witness :
    ¬ wwwDot <+: normalize_url [' ', 'A', 'b'] ∧
      pyStrip (normalize_url [' ', 'A', 'b']) = normalize_url [' ', 'A', 'b'] ∧
      normalize_url (normalize_url [' ', 'A', 'b']) = normalize_url [' ', 'A', 'b'] :=
  ⟨by decide, by decide, claim_C4 [' ', 'A', 'b'] (by decide) (by decide)⟩

/-- C4 counterexample: normalizing www.www.example.com once gives www.example.com, and
normalizing again gives example.com, so normalize composed with itself differs from
normalize at this input. -/
theorem claim_C4_counterexample :
    ¬ normalize_url (normalize_url wwwWwwExCom) = normalize_url wwwWwwExCom := by
  decide

/-- C5, amended: normalize performs exactly these steps: trim surrounding whitespace,
lowercase, extract only the host portion when a scheme separator is present, strip a single
leading www. label, and strip trailing slashes.  It performs no trailing dot strip, so its
output can end with a dot; the single trailing dot is instead removed by check_url before it
calls normalize. -/
theorem claim_C5 (s : Str) : normalize_url s = specNormalizeAmended s := by
  show pyRStripSlash (wwwStep (schemeStep (pyStrip (pyLower s)))) =
    pyRStripSlash (wwwStep (schemeStep (pyLower (pyStrip s))))
  rw [pyStrip_pyLower]

/-- C5 counterexample: the step list of the claim includes a trailing dot strip, but the
normalizer of the code keeps the trailing dot, so the two disagree at a dot terminated
input - in particular the output of normalize can end with a dot. -/
theorem claim_C5_counterexample :
    ¬ normalize_url exComDot = specNormalizeClaimed exComDot := by
  decide

/-- C9: a membership check against an uninitialized index returns false rather than raising,
both for the normalizing checker of blm_filter.py and the plain checker of filter.py. -/
theorem claim_C9 (M : HashModel) (url : Str) :
    check_url M none url = false ∧ urlblocker_check_url M none url = false :=
  ⟨rfl, rfl⟩

/-- C2: evaluating the handler at a decoded query shows it writes no audit record on any of
the three paths - blocked, forwarded with an upstream reply, and forward failed - where the
claim requires exactly one record per decoded query with the corresponding flags. -/
theorem claim_C2 :
    (handle_query [adsExCom] (some ⟨⟨7, 0, 0, 0, 0⟩, ⟨aAdsExCom, 1⟩, []⟩) none).audits = [] ∧
      (handle_query [] (some ⟨⟨7, 0, 0, 0, 0⟩, ⟨exCom, 1⟩, []⟩) (some [1, 2])).audits = [] ∧
      (handle_query [] (some ⟨⟨7, 0, 0, 0, 0⟩, ⟨exCom, 1⟩, []⟩) none).audits = [] := by
  decide

/-- C6: for every decodable query whose name is not blocked, when forwarding returns nothing
the handler sends a packed reply carrying the original transaction id and original question, a
SERVFAIL response code, and zero answer records. -/
theorem claim_C6 (bs : List Str) (req : DNSRecordM)
    (hb : is_blocked bs req.q.qname = false) :
    (handle_query bs (some req) none).response =
      some (ResponseData.packed ⟨⟨req.header.id, 1, 0, 1, 2⟩, req.q, []⟩) := by
  simp only [handle_query]
  rw [hb]
  simp

/-- C6 witness: the SERVFAIL synthesis at a concrete query with an empty blocked set. -/
theorem claim_C6_witness :
    is_blocked [] exCom = false ∧
      (handle_query [] (some ⟨⟨1234, 0, 0, 0, 0⟩, ⟨exCom, 1⟩, []⟩) none).response =
        some (ResponseData.packed ⟨⟨1234, 1, 0, 1, 2⟩, ⟨exCom, 1⟩, []⟩) :=
  ⟨by decide, claim_C6 [] ⟨⟨1234, 0, 0, 0, 0⟩, ⟨exCom, 1⟩, []⟩ (by decide)⟩

/-- C7: a datagram that fails to decode produces no reply and no audit record, the handler
run is a total function (the catch all handler of the code turns every per query failure into
a logged no-op), and the server processes every other datagram of the stream exactly as it
would without the malformed one. -/
theorem claim_C7 (bs : List Str) (pre post : List (Option DNSRecordM × Option (List Nat)))
    (fwd : Option (List Nat)) :
    server_run bs (pre ++ (none, fwd) :: post) =
      server_run bs pre ++ ⟨none, []⟩ :: server_run bs post := by
  unfold server_run
  rw [List.map_append, List.map_cons]
  rfl

/-- C8, amended: an undecodable snapshot returns the same False as a missing file - the two
cases differ only in the log line emitted - and leaves the active filter unchanged; but any
snapshot content that deserializes is installed unconditionally with a True outcome, with no
validation of its size or parameters. -/
theorem claim_C8 (prior : Option BloomFilter) (bf : BloomFilter) :
    (load_bloom_filter prior SnapshotState.missing).ret = false ∧
      (load_bloom_filter prior (SnapshotState.present PickleContent.undecodable)).ret =
        false ∧
      (load_bloom_filter prior (SnapshotState.present PickleContent.undecodable)).bloomAfter =
        prior ∧
      ¬ (load_bloom_filter prior (SnapshotState.present PickleContent.undecodable)).log =
        (load_bloom_filter prior SnapshotState.missing).log ∧
      load_bloom_filter prior (SnapshotState.present (PickleContent.filter bf)) =
        ⟨true, some bf, LoadLog.loadedInfo⟩ :=
  ⟨rfl, rfl, rfl, fun h => LoadLog.noConfusion h, rfl⟩

/-- C8 counterexample: a snapshot that deserializes to an empty filter of capacity 5 - not
the configured 600000, and holding no entry - is silently installed as the active membership
index and the load reports success. -/
theorem claim_C8_counterexample :
    (load_bloom_filter none (SnapshotState.present (PickleContent.filter ⟨5, 0, []⟩))).ret =
      true ∧
      (load_bloom_filter none
        (SnapshotState.present (PickleContent.filter ⟨5, 0, []⟩))).bloomAfter =
        some ⟨5, 0, []⟩ ∧
      (BloomFilter.mk 5 0 []).keys = [] ∧ ¬ (5 : Nat) = 600000 := by
  decide

theorem blocklistStep_mem {blocked : List Str} {line d : Str}
    (h : d ∈ blocklistStep blocked line) :
    d ∈ blocked ∨
      (2 ≤ (pySplit (pyStrip line)).length ∧
        d = pyLower ((pySplit (pyStrip line)).getD 1 []) ∧
        ¬ d = localhostStr ∧ ¬ d = localStr) := by
  unfold blocklistStep at h
  by_cases h1 : pyStrip line = [] ∨ (pyStrip line).headD '#' = '#'
  · rw [if_pos h1] at h
    exact Or.inl h
  · rw [if_neg h1] at h
    by_cases h2 : 2 ≤ (pySplit (pyStrip line)).length
    · rw [if_pos h2] at h
      by_cases h3 : pyLower ((pySplit (pyStrip line)).getD 1 []) = localhostStr ∨
          pyLower ((pySplit (pyStrip line)).getD 1 []) = localStr
      · rw [if_pos h3] at h
        exact Or.inl h
      · rw [if_neg h3] at h
        rcases List.mem_cons.mp h with h4 | h4
        · push_neg at h3
          exact Or.inr ⟨h2, h4, by rw [h4]; exact h3.1, by rw [h4]; exact h3.2⟩
        · exact Or.inl h4
    · rw [if_neg h2] at h
      exact Or.inl h

theorem load_blocklist_aux_mem (rest : List Str) :
    ∀ (blocked : List Str) {d : Str}, d ∈ load_blocklist_aux rest blocked →
      d ∈ blocked ∨ ∃ line ∈ rest,
        2 ≤ (pySplit (pyStrip line)).length ∧
          d = pyLower ((pySplit (pyStrip line)).getD 1 []) ∧
          ¬ d = localhostStr ∧ ¬ d = localStr := by
  induction rest with
  | nil =>
    intro blocked d h
    exact Or.inl h
  | cons line t ih =>
    intro blocked d h
    unfold load_blocklist_aux at h
    rcases ih _ h with h1 | ⟨l, hl, hq⟩
    · rcases blocklistStep_mem h1 with h2 | hq
      · exact Or.inl h2
      · exact Or.inr ⟨line, List.mem_cons_self line t, hq⟩
    · exact Or.inr ⟨l, List.mem_cons_of_mem line hl, hq⟩

/-- C10: every domain the async blocklist loader adds is the lowercased second whitespace
separated token of some line of the input having at least two tokens, and is never localhost
or local; in particular a single token line contributes nothing. -/
theorem claim_C10 (lines : List Str) (d : Str) (h : d ∈ load_blocklist_lines lines) :
    ∃ line ∈ lines,
      2 ≤ (pySplit (pyStrip line)).length ∧
        d = pyLower ((pySplit (pyStrip line)).getD 1 []) ∧
        ¬ d = localhostStr ∧ ¬ d = localStr := by
  rcases load_blocklist_aux_mem lines [] h with h0 | hq
  · exact absurd h0 (List.not_mem_nil d)
  · exact hq

/-- C10 witness: the loader run on one hosts file line adds exactly the lowercased second
token, and the characterization applies to it. -/
theorem claim_C10_witness :
    adsExCom ∈ load_blocklist_lines [hostsLine] ∧
      ∃ line ∈ [hostsLine],
        2 ≤ (pySplit (pyStrip line)).length ∧
          adsExCom = pyLower ((pySplit (pyStrip line)).getD 1 []) ∧
          ¬ adsExCom = localhostStr ∧ ¬ adsExCom = localStr :=
  ⟨by decide, claim_C10 [hostsLine] adsExCom (by decide)⟩

end PiGate
